import Mathlib

/-!
Verification of the Spatial Image Container described by the repository's
specification.  The repository's sole source file is a tutorial notebook
(`3_b_SimpleITK_Prototyping_Introduction.ipynb`) that exercises the container
through an external library; the container itself is therefore modelled here
from the specification's data model and component design, keeping the
notebook's operation names (`Image`, `GetPixel`, `SetPixel`, slicing,
`__add__`, `PhysicalPointSource`).
-/

namespace SpatialImage

/-- Modelled from the spec: the enumerated sample kinds listed in the
notebook's pixel-type table (`sitkUInt8`, `sitkInt16`, ..., vector variants).
The spec fixes the kind at creation with no default. -/
inductive SampleKind where
  | sitkUInt8
  | sitkInt8
  | sitkUInt16
  | sitkInt16
  | sitkUInt32
  | sitkInt32
  | sitkUInt64
  | sitkInt64
  | sitkFloat32
  | sitkFloat64
  | sitkVectorUInt8
  | sitkVectorFloat32
  deriving DecidableEq, Repr

/-- Modelled from the spec: every enumerated kind's zero value, used to
zero-initialize a freshly constructed buffer. -/
def SampleKind.zeroValue : SampleKind → ℚ := fun _ => 0

/-- Wrap a rational holding an integer value into the unsigned range of
`bits` bits (mod `2^bits` wrap, as the spec fixes for unsigned arithmetic). -/
def wrapUnsigned (bits : ℕ) (x : ℚ) : ℚ := ((x.num % (2 ^ bits : ℤ) : ℤ) : ℚ)

/-- Wrap a rational holding an integer value into the signed two's-complement
range of `bits` bits. -/
def wrapSigned (bits : ℕ) (x : ℚ) : ℚ :=
  let m : ℤ := 2 ^ bits
  let r : ℤ := x.num % m
  if r < 2 ^ (bits - 1) then (r : ℚ) else ((r - m : ℤ) : ℚ)

/-- Modelled from the spec: the per-kind wrap applied to the result of a
scalar arithmetic operation ("wrap/saturate policy must be fixed and
documented, e.g. mod-256 wrap for unsigned 8-bit addition"); floating-point
kinds are exact here. -/
def SampleKind.wrap : SampleKind → ℚ → ℚ
  | .sitkUInt8 => wrapUnsigned 8
  | .sitkInt8 => wrapSigned 8
  | .sitkUInt16 => wrapUnsigned 16
  | .sitkInt16 => wrapSigned 16
  | .sitkUInt32 => wrapUnsigned 32
  | .sitkInt32 => wrapSigned 32
  | .sitkUInt64 => wrapUnsigned 64
  | .sitkInt64 => wrapSigned 64
  | .sitkFloat32 => id
  | .sitkFloat64 => id
  | .sitkVectorUInt8 => wrapUnsigned 8
  | .sitkVectorFloat32 => id

/-- Modelled from the spec: which scalar component values a kind can
represent (integer kinds: integers in the kind's range; float kinds: any). -/
def SampleKind.representable : SampleKind → ℚ → Prop
  | .sitkUInt8, x => x.den = 1 ∧ 0 ≤ x.num ∧ x.num < 2 ^ 8
  | .sitkInt8, x => x.den = 1 ∧ -2 ^ 7 ≤ x.num ∧ x.num < 2 ^ 7
  | .sitkUInt16, x => x.den = 1 ∧ 0 ≤ x.num ∧ x.num < 2 ^ 16
  | .sitkInt16, x => x.den = 1 ∧ -2 ^ 15 ≤ x.num ∧ x.num < 2 ^ 15
  | .sitkUInt32, x => x.den = 1 ∧ 0 ≤ x.num ∧ x.num < 2 ^ 32
  | .sitkInt32, x => x.den = 1 ∧ -2 ^ 31 ≤ x.num ∧ x.num < 2 ^ 31
  | .sitkUInt64, x => x.den = 1 ∧ 0 ≤ x.num ∧ x.num < 2 ^ 64
  | .sitkInt64, x => x.den = 1 ∧ -2 ^ 63 ≤ x.num ∧ x.num < 2 ^ 63
  | .sitkFloat32, _ => True
  | .sitkFloat64, _ => True
  | .sitkVectorUInt8, x => x.den = 1 ∧ 0 ≤ x.num ∧ x.num < 2 ^ 8
  | .sitkVectorFloat32, _ => True

instance (k : SampleKind) (x : ℚ) : Decidable (k.representable x) := by
  cases k <;> dsimp [SampleKind.representable] <;> infer_instance

/-- Modelled from the spec: error kinds surfaced by the Spatial Image
Container (spec section 7). -/
inductive Err where
  | invalidGeometry
  | indexOutOfBounds
  | invalidSlice
  | geometryMismatch
  | unsupportedSampleKind
  deriving DecidableEq, Repr

/-- The identity direction matrix (spec: direction defaults to identity). -/
def idMat (n : ℕ) : Fin n → Fin n → ℚ := fun i j => if i = j then 1 else 0

/-- Modelled from the spec: the Image entity (spec section 3).  `dimension`
is the rank `n`; `size`, `origin`, `spacing` are per-axis vectors;
`direction` is a `dimension × dimension` matrix; `buffer` is indexable
storage of one sample (a `comps`-component tuple of scalars) per index. -/
structure Image (n : ℕ) where
  kind : SampleKind
  comps : ℕ
  size : Fin n → ℕ
  origin : Fin n → ℚ
  spacing : Fin n → ℚ
  direction : Fin n → Fin n → ℚ
  buffer : (Fin n → ℕ) → List ℚ

/-- Modelled from the spec: construction accepts a sample kind, a size
vector, and a components-per-sample count, and produces an Image with all
samples zero-initialized and default geometry (zero origin, unit spacing,
identity direction). -/
def mkImage (n : ℕ) (kind : SampleKind) (size : Fin n → ℕ) (comps : ℕ) :
    Image n where
  kind := kind
  comps := comps
  size := size
  origin := fun _ => 0
  spacing := fun _ => 1
  direction := idMat n
  buffer := fun _ => List.replicate comps kind.zeroValue

/-- An index with exactly `dimension` integer components, each in
`[0, size d)`. -/
def Image.inRange (img : Image n) (idx : Fin n → ℕ) : Prop :=
  ∀ d, idx d < img.size d

instance (img : Image n) (idx : Fin n → ℕ) : Decidable (img.inRange idx) :=
  inferInstanceAs (Decidable (∀ _, _))

/-- Modelled from the spec: `getSample` (the notebook's `GetPixel`); an
out-of-range index fails with `IndexOutOfBounds`. -/
def Image.GetPixel (img : Image n) (idx : Fin n → ℕ) : Except Err (List ℚ) :=
  if img.inRange idx then .ok (img.buffer idx) else .error .indexOutOfBounds

/-- Modelled from the spec: `setSample` (the notebook's `SetPixel`); an
out-of-range index fails with `IndexOutOfBounds`, an in-range write replaces
exactly that sample. -/
def Image.SetPixel (img : Image n) (idx : Fin n → ℕ) (v : List ℚ) :
    Except Err (Image n) :=
  if img.inRange idx then
    .ok { img with buffer := fun i => if i = idx then v else img.buffer i }
  else .error .indexOutOfBounds

/-- Modelled from the spec: the physical coordinate of (a rational
interpolation of) index `i` is `origin + direction · diag(spacing) · i`. -/
def Image.physicalPoint (img : Image n) (idx : Fin n → ℚ) : Fin n → ℚ :=
  fun i => img.origin i + ∑ j, img.direction i j * (img.spacing j * idx j)

/-- Modelled from the spec: the fixed numeric tolerance for geometry
comparison in elementwise binary operators.  The spec leaves the epsilon as
an implementer-chosen, documented constant; it is fixed here at `10 ^ (-6)`
with an inclusive comparison, matching the notebook cell that demonstrates
an origin offset of `0.000001` per component being accepted. -/
def geomTolerance : ℚ := 1 / 1000000

/-- Modelled from the spec: geometry match for binary operators — size
exactly, origin/spacing/direction within the fixed tolerance. -/
def geomMatch (a b : Image n) : Prop :=
  a.size = b.size ∧
  (∀ d, |a.origin d - b.origin d| ≤ geomTolerance) ∧
  (∀ d, |a.spacing d - b.spacing d| ≤ geomTolerance) ∧
  (∀ i j, |a.direction i j - b.direction i j| ≤ geomTolerance)

instance (a b : Image n) : Decidable (geomMatch a b) :=
  inferInstanceAs (Decidable (_ ∧ _))

/-- Modelled from the spec: elementwise binary addition of two Images of the
same sample kind (the notebook's `img1 + img2`).  It requires the operands'
geometry to match within the fixed tolerance and fails with
`GeometryMismatch` otherwise; the result is a new Image with the geometry of
the image operands and per-sample results equal to the scalar addition of
each sample pair under the kind's wrap policy.  (Numeric promotion between
distinct kinds is outside the claims' scope; operands of the same kind keep
that kind.) -/
def Image.add (a b : Image n) : Except Err (Image n) :=
  if geomMatch a b then
    .ok { a with
          buffer := fun idx =>
            List.zipWith (fun x y => a.kind.wrap (x + y))
              (a.buffer idx) (b.buffer idx) }
  else .error .geometryMismatch

/-- Modelled from the spec: a per-dimension `(start, stop, step)` slice
triple with Python-slice semantics — omitted bounds (`none`) default to the
full extent in the step's direction, negative bounds count from the end. -/
structure SliceTriple where
  start : Option ℤ
  stop : Option ℤ
  step : ℤ

/-- Python-semantics adjustment of the optional start bound against an axis
extent `len`, for a given nonzero step. -/
def adjStart (t : SliceTriple) (len : ℕ) : ℤ :=
  let lower : ℤ := if t.step < 0 then -1 else 0
  let upper : ℤ := if t.step < 0 then (len : ℤ) - 1 else (len : ℤ)
  match t.start with
  | none => if t.step < 0 then upper else lower
  | some s => if s < 0 then max (s + (len : ℤ)) lower else min s upper

/-- Python-semantics adjustment of the optional stop bound against an axis
extent `len`, for a given nonzero step. -/
def adjStop (t : SliceTriple) (len : ℕ) : ℤ :=
  let lower : ℤ := if t.step < 0 then -1 else 0
  let upper : ℤ := if t.step < 0 then (len : ℤ) - 1 else (len : ℤ)
  match t.stop with
  | none => if t.step < 0 then lower else upper
  | some s => if s < 0 then max (s + (len : ℤ)) lower else min s upper

/-- The number of indices selected by a slice triple over an axis of extent
`len` (Python slice-length computation). -/
def sliceLen (t : SliceTriple) (len : ℕ) : ℕ :=
  let start := adjStart t len
  let stop := adjStop t len
  if t.step < 0 then
    if stop < start then ((start - stop - 1) / (-t.step) + 1).toNat else 0
  else
    if start < stop then ((stop - start - 1) / t.step + 1).toNat else 0

/-- The sign of a step, as a rational scale factor for a direction column. -/
def stepSign (s : ℤ) : ℚ := if s < 0 then -1 else 1

/-- Modelled from the spec: slicing.  Given per-dimension `(start, stop,
step)` triples it produces a new Image — an independent copy, not a view —
whose size is the computed slice length per dimension, whose sample kind and
components-per-sample match the source, and whose geometry is recomputed so
that the physical location of slice-index `(0,...,0)` equals the physical
location of the corresponding source index, spacing is scaled by `|step|`
per axis, and the direction column's sign is flipped on axes with negative
step.  A zero step fails with `InvalidSlice`. -/
def Image.slice (img : Image n) (sp : Fin n → SliceTriple) :
    Except Err (Image n) :=
  if ∀ d, (sp d).step ≠ 0 then
    .ok { kind := img.kind
          comps := img.comps
          size := fun d => sliceLen (sp d) (img.size d)
          origin := img.physicalPoint (fun d => (adjStart (sp d) (img.size d) : ℚ))
          spacing := fun d => img.spacing d * ((sp d).step.natAbs : ℚ)
          direction := fun i j => img.direction i j * stepSign (sp j).step
          buffer := fun idx => img.buffer
            (fun d => (adjStart (sp d) (img.size d) + (idx d : ℤ) * (sp d).step).toNat) }
  else .error .invalidSlice

/-- Python-semantics normalization of a single integer index against an axis
extent: a negative index counts from the end. -/
def normIdx (len : ℕ) (i : ℤ) : ℤ := if i < 0 then i + (len : ℤ) else i

/-- Modelled from the spec: the pythonic bracket read accessor used by the
notebook (`image_3D[0,0,1]`), following the Python convention that a
negative index counts from the end; an index outside the declared extent
after normalization fails with `IndexOutOfBounds`. -/
def Image.getItem (img : Image n) (idx : Fin n → ℤ) : Except Err (List ℚ) :=
  if ∀ d, 0 ≤ normIdx (img.size d) (idx d) then
    img.GetPixel (fun d => (normIdx (img.size d) (idx d)).toNat)
  else .error .indexOutOfBounds

/-- Modelled from the spec: the pythonic bracket write accessor used by the
notebook (`image_3D[0,0,1] = 2`), normalizing negative indices the same way
and then writing the sample. -/
def Image.setItem (img : Image n) (idx : Fin n → ℤ) (v : List ℚ) :
    Except Err (Image n) :=
  if ∀ d, 0 ≤ normIdx (img.size d) (idx d) then
    img.SetPixel (fun d => (normIdx (img.size d) (idx d)).toNat) v
  else .error .indexOutOfBounds

/-- Modelled from the spec: the physical-point-source generator.  Given a
target sample kind, size, origin-like lower bound, and per-axis spacing it
produces an Image (default identity direction) whose each sample's component
values equal that sample's physical coordinates. -/
def PhysicalPointSource (n : ℕ) (kind : SampleKind) (size : Fin n → ℕ)
    (origin spacing : Fin n → ℚ) : Image n where
  kind := kind
  comps := n
  size := size
  origin := origin
  spacing := spacing
  direction := idMat n
  buffer := fun idx => List.ofFn (fun i => origin i + spacing i * (idx i : ℚ))

/-- Modelled from the spec: the `SetOrigin` mutator (origin is mutable, any
real vector is accepted). -/
def Image.SetOrigin (img : Image n) (o : Fin n → ℚ) : Image n :=
  { img with origin := o }

/-- Modelled from the spec: the `SetSpacing` mutator; setting spacing to a
non-positive value fails with `InvalidGeometry`. -/
def Image.SetSpacing (img : Image n) (s : Fin n → ℚ) : Except Err (Image n) :=
  if ∀ d, 0 < s d then .ok { img with spacing := s }
  else .error .invalidGeometry

/-- Extract the success value of a fallible operation, with a fallback. -/
def exceptOkD (e : Except ε α) (d : α) : α :=
  match e with
  | .ok a => a
  | .error _ => d

/-- The slice triple `::` — full extent, step one. -/
def fullAxis : SliceTriple := ⟨none, none, 1⟩

/-- The slice triple `::-1` — full extent, step minus one. -/
def revAxis : SliceTriple := ⟨none, none, -1⟩

/-- The slice specification that reverses axis `a` over its full extent and
keeps every other axis whole. -/
def fullReverseSpec (n : ℕ) (a : Fin n) : Fin n → SliceTriple :=
  fun d => if d = a then revAxis else fullAxis

/-- The source index that slice `[::-1]` on axis `a` reads for a given
result index: axis `a` is reflected, other axes are unchanged. -/
def reflectIdx (img : Image n) (a : Fin n) (idx : Fin n → ℕ) : Fin n → ℕ :=
  fun d => if d = a then img.size a - 1 - idx d else idx d

/-! ### Notebook fixtures

The concrete images built by the notebook's operator cell:
`img1 = sitk.Image(24,24, sitk.sitkUInt8); img1[0,0] = 0` and
`img2 = sitk.Image(img1.GetSize(), sitk.sitkUInt8); img2[0,0] = 255`,
with the optional `SetSpacing([0.5,0.8])` and `SetOrigin([0.000001,0.000001])`
variants. -/

/-- The 24×24 size vector of the notebook's operator cell. -/
def size24 : Fin 2 → ℕ := fun _ => 24

/-- The index `[0,0]`. -/
def idx00 : Fin 2 → ℕ := fun _ => 0

/-- The notebook's `img1`: 24×24 unsigned 8-bit, sample 0 written at
`[0,0]`. -/
def img1nb : Image 2 :=
  exceptOkD ((mkImage 2 .sitkUInt8 size24 1).SetPixel idx00 [0])
    (mkImage 2 .sitkUInt8 size24 1)

/-- The notebook's `img2`: 24×24 unsigned 8-bit, sample 255 written at
`[0,0]`. -/
def img2nb : Image 2 :=
  exceptOkD ((mkImage 2 .sitkUInt8 size24 1).SetPixel idx00 [255])
    (mkImage 2 .sitkUInt8 size24 1)

/-- The notebook's `img2` variant with `SetSpacing([0.5,0.8])`. -/
def img2nbSpacing : Image 2 :=
  exceptOkD (img2nb.SetSpacing (fun d => if d = 0 then 1/2 else 4/5)) img2nb

/-- The notebook's `img2` variant with `SetOrigin([0.000001,0.000001])`. -/
def img2nbOrigin : Image 2 :=
  img2nb.SetOrigin (fun _ => 1/1000000)

/-! ### Buffer-ownership layer

The spec's resource model says each Image exclusively owns its sample
buffer, and slicing always produces a fresh, independently-owned buffer
(copy semantics), never a shared view.  To make ownership and in-place
mutation observable, buffers live in an explicit store and images refer to
their buffer by position; every stateful operation returns the new store
together with its result, so that mutation on failure is expressible. -/

/-- Indexable sample storage. -/
abbrev Buffer (n : ℕ) := (Fin n → ℕ) → List ℚ

/-- A store of independently-owned sample buffers. -/
abbrev Store (n : ℕ) := List (Buffer n)

/-- An Image whose buffer is held in a store at position `bufId`. -/
structure ImgRef (n : ℕ) where
  kind : SampleKind
  comps : ℕ
  size : Fin n → ℕ
  origin : Fin n → ℚ
  spacing : Fin n → ℚ
  direction : Fin n → Fin n → ℚ
  bufId : ℕ

/-- The value-level Image denoted by a reference under a store. -/
def refImage (h : Store n) (r : ImgRef n) : Image n where
  kind := r.kind
  comps := r.comps
  size := r.size
  origin := r.origin
  spacing := r.spacing
  direction := r.direction
  buffer := h.getD r.bufId (fun _ => [])

/-- A reference to a freshly allocated image, its buffer placed at the end
of the store. -/
def allocRef (h : Store n) (img : Image n) : Store n × ImgRef n :=
  (h ++ [img.buffer],
   { kind := img.kind, comps := img.comps, size := img.size,
     origin := img.origin, spacing := img.spacing,
     direction := img.direction, bufId := h.length })

/-- Store-level `getSample`: read through the reference. -/
def storeGetPixel (h : Store n) (r : ImgRef n) (idx : Fin n → ℕ) :
    Except Err (List ℚ) :=
  (refImage h r).GetPixel idx

/-- Store-level `setSample`: an in-range write mutates the referenced buffer
in place; an out-of-range index fails with `IndexOutOfBounds` and leaves the
store unchanged. -/
def storeSetPixel (h : Store n) (r : ImgRef n) (idx : Fin n → ℕ)
    (v : List ℚ) : Store n × Option Err :=
  if (refImage h r).inRange idx then
    (h.set r.bufId
      (fun i => if i = idx then v else (h.getD r.bufId (fun _ => [])) i),
     none)
  else (h, some .indexOutOfBounds)

/-- Store-level slicing: a successful slice allocates a fresh buffer (copy
semantics, never a shared view); a failed slice leaves the store
unchanged. -/
def storeSlice (h : Store n) (r : ImgRef n) (sp : Fin n → SliceTriple) :
    Store n × Except Err (ImgRef n) :=
  match (refImage h r).slice sp with
  | .ok s => ((allocRef h s).1, .ok (allocRef h s).2)
  | .error e => (h, .error e)

/-- Store-level addition: a successful addition allocates a fresh buffer for
the result; a failure leaves the store unchanged. -/
def storeAdd (h : Store n) (r1 r2 : ImgRef n) :
    Store n × Except Err (ImgRef n) :=
  match (refImage h r1).add (refImage h r2) with
  | .ok s => ((allocRef h s).1, .ok (allocRef h s).2)
  | .error e => (h, .error e)

/-- The full-extent, step-one slice specification (`[:,:]`). -/
def fullSpec : Fin 2 → SliceTriple := fun _ => fullAxis

/-- A slice specification with a zero step on every axis (invalid). -/
def zeroStepSpec : Fin 2 → SliceTriple := fun _ => ⟨none, none, 0⟩

/-- A one-buffer store holding the notebook's 24×24 unsigned 8-bit image. -/
def storeNb : Store 2 := [(mkImage 2 .sitkUInt8 size24 1).buffer]

/-- A reference to the image stored in `storeNb`. -/
def refNb : ImgRef 2 where
  kind := .sitkUInt8
  comps := 1
  size := size24
  origin := fun _ => 0
  spacing := fun _ => 1
  direction := idMat 2
  bufId := 0

/-- A reference identical to `refNb` except for a 10×10 declared size, so a
binary operation against `refNb` fails its geometry check. -/
def refNbSmall : ImgRef 2 := { refNb with size := fun _ => 10 }

/-! ### Basic lemmas -/

lemma geomMatch_of_eq (a b : Image n) (hsz : a.size = b.size)
    (hor : a.origin = b.origin) (hsp : a.spacing = b.spacing)
    (hdir : a.direction = b.direction) : geomMatch a b := by
  refine ⟨hsz, fun d => ?_, fun d => ?_, fun i j => ?_⟩ <;>
    simp [hor, hsp, hdir, geomTolerance]

lemma GetPixel_ok_of_inRange (img : Image n) (idx : Fin n → ℕ)
    (h : img.inRange idx) : img.GetPixel idx = .ok (img.buffer idx) := by
  rw [Image.GetPixel, if_pos h]

lemma img2nbSpacing_eq :
    img2nbSpacing = { img2nb with spacing := fun d => if d = 0 then 1/2 else 4/5 } := by
  have hpos : ∀ d : Fin 2, (0 : ℚ) < (if d = 0 then 1/2 else (4/5 : ℚ)) := by
    intro d
    split <;> norm_num
  rw [img2nbSpacing, Image.SetSpacing, if_pos hpos, exceptOkD]

/-- C1: for every valid sample kind and size vector, a newly constructed
Image has every sample equal to the kind's zero value, origin all-zero,
spacing all-one, and direction the identity matrix. -/
theorem mkImage_zero_init (n : ℕ) (kind : SampleKind) (size : Fin n → ℕ)
    (comps : ℕ) (idx : Fin n → ℕ) (hin : ∀ d, idx d < size d) :
    (mkImage n kind size comps).GetPixel idx
      = .ok (List.replicate comps kind.zeroValue) ∧
    (mkImage n kind size comps).origin = (fun _ => 0) ∧
    (mkImage n kind size comps).spacing = (fun _ => 1) ∧
    (mkImage n kind size comps).direction = idMat n := by
  refine ⟨?_, rfl, rfl, rfl⟩
  have hin2 : (mkImage n kind size comps).inRange idx := hin
  rw [Image.GetPixel, if_pos hin2]
  rfl

/-- Witness for C1 at the notebook's 24×24 unsigned 8-bit construction. -/
theorem mkImage_zero_init_witness :
    (mkImage 2 .sitkUInt8 size24 1).GetPixel idx00
      = .ok (List.replicate 1 SampleKind.sitkUInt8.zeroValue) ∧
    (mkImage 2 .sitkUInt8 size24 1).origin = (fun _ => 0) ∧
    (mkImage 2 .sitkUInt8 size24 1).spacing = (fun _ => 1) ∧
    (mkImage 2 .sitkUInt8 size24 1).direction = idMat 2 :=
  mkImage_zero_init 2 .sitkUInt8 size24 1 idx00
    (fun d => by norm_num [size24, idx00])

/-- C2: for every Image and every in-range index, writing a representable
value with `setSample` and reading it back with `getSample` returns that
value. -/
theorem setPixel_getPixel_roundtrip (img : Image n) (idx : Fin n → ℕ)
    (v : List ℚ) (hin : ∀ d, idx d < img.size d)
    (hlen : v.length = img.comps)
    (hrep : ∀ x ∈ v, img.kind.representable x) :
    (img.SetPixel idx v).bind (fun r => r.GetPixel idx) = .ok v := by
  have hin2 : img.inRange idx := hin
  rw [Image.SetPixel, if_pos hin2]
  show Image.GetPixel _ idx = .ok v
  have hin3 : Image.inRange
      { img with buffer := fun i => if i = idx then v else img.buffer i } idx := hin
  rw [Image.GetPixel, if_pos hin3]
  simp

/-- Witness for C2: writing 5 at `[0,0]` of a 24×24 unsigned 8-bit image and
reading it back yields 5. -/
theorem setPixel_getPixel_roundtrip_witness :
    ((mkImage 2 .sitkUInt8 size24 1).SetPixel idx00 [5]).bind
      (fun r => r.GetPixel idx00) = .ok [5] :=
  setPixel_getPixel_roundtrip (mkImage 2 .sitkUInt8 size24 1) idx00 [5]
    (fun d => by norm_num [size24, idx00, mkImage])
    (by norm_num [mkImage])
    (by
      intro x hx
      rw [List.mem_singleton] at hx
      subst hx
      norm_num [mkImage, SampleKind.representable])

/-- C10: the pythonic bracket accessors agree with the named accessors on
every in-range index: `image[idx]` returns what `GetPixel idx` returns, and
`image[idx] = v` produces the same state as `SetPixel idx v`. -/
theorem bracket_accessors_equiv (img : Image n) (idx : Fin n → ℕ)
    (v : List ℚ) (hin : ∀ d, idx d < img.size d) :
    img.getItem (fun d => (idx d : ℤ)) = img.GetPixel idx ∧
    img.setItem (fun d => (idx d : ℤ)) v = img.SetPixel idx v := by
  have hpos : ∀ d, 0 ≤ normIdx (img.size d) ((idx d : ℤ)) := by
    intro d
    simp only [normIdx]
    omega
  have hnorm : (fun d => (normIdx (img.size d) ((idx d : ℤ))).toNat) = idx := by
    funext d
    simp only [normIdx]
    omega
  constructor
  · rw [Image.getItem, if_pos hpos, hnorm]
  · rw [Image.setItem, if_pos hpos, hnorm]

/-- Witness for C10 at index `[0,0]` of the notebook's `img1`. -/
theorem bracket_accessors_equiv_witness :
    img1nb.getItem (fun d => ((idx00 d : ℤ))) = img1nb.GetPixel idx00 ∧
    img1nb.setItem (fun d => ((idx00 d : ℤ))) [7] = img1nb.SetPixel idx00 [7] :=
  bracket_accessors_equiv img1nb idx00 [7]
    (fun d => by norm_num [idx00, img1nb, exceptOkD, mkImage, size24, Image.SetPixel, Image.inRange])

/-- C8: the physical-point-source generator yields an Image whose sample at
every in-range index is the vector of that index's physical coordinates,
namely the lower bound plus index times spacing per axis. -/
theorem physicalPointSource_correct (n : ℕ) (kind : SampleKind)
    (size : Fin n → ℕ) (lower spacing : Fin n → ℚ) (idx : Fin n → ℕ)
    (hin : ∀ d, idx d < size d) :
    (PhysicalPointSource n kind size lower spacing).GetPixel idx
      = .ok (List.ofFn fun i =>
          (PhysicalPointSource n kind size lower spacing).physicalPoint
            (fun d => (idx d : ℚ)) i) ∧
    ∀ i, (PhysicalPointSource n kind size lower spacing).physicalPoint
          (fun d => (idx d : ℚ)) i = lower i + spacing i * (idx i : ℚ) := by
  have hphys : ∀ i, (PhysicalPointSource n kind size lower spacing).physicalPoint
      (fun d => (idx d : ℚ)) i = lower i + spacing i * (idx i : ℚ) := by
    intro i
    show lower i + (∑ j, idMat n i j * (spacing j * (idx j : ℚ)))
        = lower i + spacing i * (idx i : ℚ)
    simp [idMat, ite_mul, Finset.sum_ite_eq]
  refine ⟨?_, hphys⟩
  have hin2 : (PhysicalPointSource n kind size lower spacing).inRange idx := hin
  rw [Image.GetPixel, if_pos hin2]
  exact congrArg Except.ok (congrArg List.ofFn (funext fun i => (hphys i).symm))

/-- Witness for C8 at the notebook's invocation: size 256 over `[-1,1]^2`
with spacing `2/(256-1)`; the two corner samples are `(-1,-1)` and
`(1,1)`. -/
theorem physicalPointSource_correct_witness :
    (PhysicalPointSource 2 .sitkVectorFloat32 (fun _ => 256) (fun _ => -1)
      (fun _ => 2/255)).GetPixel (fun _ => 0) = .ok [(-1 : ℚ), -1] ∧
    (PhysicalPointSource 2 .sitkVectorFloat32 (fun _ => 256) (fun _ => -1)
      (fun _ => 2/255)).GetPixel (fun _ => 255) = .ok [(1 : ℚ), 1] := by
  have h0 := physicalPointSource_correct 2 .sitkVectorFloat32 (fun _ => 256)
    (fun _ => -1) (fun _ => 2/255) (fun _ => 0) (fun d => by norm_num)
  have h1 := physicalPointSource_correct 2 .sitkVectorFloat32 (fun _ => 256)
    (fun _ => -1) (fun _ => 2/255) (fun _ => 255) (fun d => by norm_num)
  constructor
  · rw [h0.1, funext h0.2]
    norm_num [List.ofFn_succ]
  · rw [h1.1, funext h1.2]
    norm_num [List.ofFn_succ]

/-- C5: elementwise addition between equal-size Images whose spacing (or
origin, or direction) differs beyond the fixed tolerance fails with
`GeometryMismatch`. -/
theorem add_geometry_mismatch_fails (a b : Image n) (hsz : a.size = b.size)
    (hdiff : (∃ d, geomTolerance < |a.spacing d - b.spacing d|) ∨
             (∃ d, geomTolerance < |a.origin d - b.origin d|) ∨
             (∃ i j, geomTolerance < |a.direction i j - b.direction i j|)) :
    a.add b = .error .geometryMismatch := by
  rw [Image.add, if_neg]
  rintro ⟨-, ho, hs, hd⟩
  rcases hdiff with ⟨d, h⟩ | ⟨d, h⟩ | ⟨i, j, h⟩
  exacts [absurd (hs d) (not_le.mpr h), absurd (ho d) (not_le.mpr h),
    absurd (hd i j) (not_le.mpr h)]

/-- Witness for C5: the notebook's `img2.SetSpacing([0.5,0.8])` variant makes
`img1 + img2` fail with `GeometryMismatch`. -/
theorem add_geometry_mismatch_fails_witness :
    img1nb.add img2nbSpacing = .error .geometryMismatch :=
  add_geometry_mismatch_fails img1nb img2nbSpacing
    (by rw [img2nbSpacing_eq]; rfl)
    (.inl ⟨0, by
      rw [img2nbSpacing_eq]
      show geomTolerance < |(1 : ℚ) - 1/2|
      rw [geomTolerance, show |(1 : ℚ) - 1/2| = 1/2 by norm_num [abs]]
      norm_num⟩)

/-- C9: for every pair of Images identical in sample kind, size, spacing and
direction whose origins differ by `0.000001` in each component, the origin
difference is within the geometry tolerance and elementwise addition
succeeds (the notebook's uncommented `SetOrigin([0.000001,0.000001])`
cell). -/
theorem add_origin_within_tolerance (a b : Image n)
    (hk : a.kind = b.kind) (hsz : a.size = b.size)
    (hsp : a.spacing = b.spacing) (hdir : a.direction = b.direction)
    (hor : ∀ d, |a.origin d - b.origin d| = 1/1000000) :
    ∃ c, a.add b = .ok c := by
  have hmatch : geomMatch a b := by
    refine ⟨hsz, fun d => ?_, fun d => ?_, fun i j => ?_⟩
    · rw [hor d, geomTolerance]
    · rw [hsp]
      simp [geomTolerance]
    · rw [hdir]
      simp [geomTolerance]
  rw [Image.add, if_pos hmatch]
  exact ⟨_, rfl⟩

/-- Witness for C9 at the notebook's pair: `img1` against `img2` with
`SetOrigin([0.000001,0.000001])`. -/
theorem add_origin_within_tolerance_witness :
    ∃ c, img1nb.add img2nbOrigin = .ok c :=
  add_origin_within_tolerance img1nb img2nbOrigin rfl rfl rfl rfl
    (fun d => by
      show |(0 : ℚ) - 1/1000000| = 1/1000000
      norm_num [abs])

/-- C6: addition of two unsigned-8-bit Images of identical geometry succeeds,
and each result sample is the mod-256 sum of the corresponding operand
samples. -/
theorem add_uint8_mod256 (a b : Image n)
    (hak : a.kind = .sitkUInt8) (hbk : b.kind = .sitkUInt8)
    (hsz : a.size = b.size) (hor : a.origin = b.origin)
    (hsp : a.spacing = b.spacing) (hdir : a.direction = b.direction) :
    ∃ c, a.add b = .ok c ∧
      ∀ (idx : Fin n → ℕ) (ka kb : ℕ), (∀ d, idx d < a.size d) →
        ka < 256 → kb < 256 →
        a.GetPixel idx = .ok [(ka : ℚ)] → b.GetPixel idx = .ok [(kb : ℚ)] →
        c.GetPixel idx = .ok [(((ka + kb) % 256 : ℕ) : ℚ)] := by
  rw [Image.add, if_pos (geomMatch_of_eq a b hsz hor hsp hdir)]
  refine ⟨_, rfl, ?_⟩
  intro idx ka kb hin hka hkb hga hgb
  have hina : a.inRange idx := hin
  have hinb : b.inRange idx := fun d => hsz ▸ hin d
  rw [GetPixel_ok_of_inRange a idx hina] at hga
  rw [GetPixel_ok_of_inRange b idx hinb] at hgb
  have hba : a.buffer idx = [(ka : ℚ)] := Except.ok.inj hga
  have hbb : b.buffer idx = [(kb : ℚ)] := Except.ok.inj hgb
  have hinc : Image.inRange
      { a with
        buffer := fun i =>
          List.zipWith (fun x y => a.kind.wrap (x + y)) (a.buffer i) (b.buffer i) }
      idx := hin
  rw [GetPixel_ok_of_inRange _ idx hinc]
  show Except.ok (List.zipWith (fun x y => a.kind.wrap (x + y))
      (a.buffer idx) (b.buffer idx)) = _
  rw [hba, hbb, hak]
  show Except.ok [SampleKind.wrap .sitkUInt8 ((ka : ℚ) + (kb : ℚ))] = _
  have hw : SampleKind.wrap .sitkUInt8 ((ka : ℚ) + (kb : ℚ))
      = (((ka + kb) % 256 : ℕ) : ℚ) := by
    show wrapUnsigned 8 ((ka : ℚ) + (kb : ℚ)) = (((ka + kb) % 256 : ℕ) : ℚ)
    rw [wrapUnsigned,
      show ((ka : ℚ) + (kb : ℚ)) = ((ka + kb : ℕ) : ℚ) by push_cast; ring,
      Rat.num_natCast]
    norm_cast
  rw [hw]

/-- Witness for C6: the notebook's cell — a 24×24 unsigned 8-bit image with
sample 0 at `[0,0]` added to one with 255 there yields 255 at `[0,0]`. -/
theorem add_uint8_mod256_witness :
    ∃ c, img1nb.add img2nb = .ok c ∧ c.GetPixel idx00 = .ok [(255 : ℚ)] := by
  obtain ⟨c, hc, hall⟩ := add_uint8_mod256 img1nb img2nb rfl rfl rfl rfl rfl rfl
  refine ⟨c, hc, ?_⟩
  have h := hall idx00 0 255 (fun d => by norm_num [img1nb, exceptOkD, mkImage,
      Image.SetPixel, Image.inRange, size24, idx00])
    (by norm_num) (by norm_num)
    (by rw [show img1nb.GetPixel idx00 = .ok [0] from rfl]; norm_num)
    (by rw [show img2nb.GetPixel idx00 = .ok [255] from rfl]; norm_num)
  rw [h]
  norm_num

lemma getD_set_ne {α : Type} (l : List α) (i j : ℕ) (x d : α) (hij : i ≠ j) :
    (l.set i x).getD j d = l.getD j d := by
  simp [List.getD_eq_getElem?_getD, List.getElem?_set_ne hij]

lemma refImage_set_ne (h : Store n) (r : ImgRef n) (i : ℕ) (f : Buffer n)
    (hne : i ≠ r.bufId) : refImage (h.set i f) r = refImage h r := by
  rw [refImage, refImage, getD_set_ne _ _ _ _ _ hne]

/-- C3: slicing produces an independent copy, not a view.  After a
successful slice, writing a sample through the sliced reference leaves every
sample of the source unchanged, and writing through the source leaves every
sample of the sliced result unchanged. -/
theorem slice_is_independent_copy (h : Store n) (r : ImgRef n)
    (hr : r.bufId < h.length) (sp : Fin n → SliceTriple)
    (h2 : Store n) (r2 : ImgRef n)
    (hs : storeSlice h r sp = (h2, .ok r2))
    (idx jdx : Fin n → ℕ) (v : List ℚ) :
    storeGetPixel (storeSetPixel h2 r2 idx v).1 r jdx
      = storeGetPixel h2 r jdx ∧
    storeGetPixel (storeSetPixel h2 r idx v).1 r2 jdx
      = storeGetPixel h2 r2 jdx := by
  rw [storeSlice] at hs
  cases hsl : (refImage h r).slice sp with
  | error e =>
    rw [hsl] at hs
    simp at hs
  | ok s =>
    rw [hsl] at hs
    rw [Prod.mk.injEq] at hs
    obtain ⟨hh2, hrr2⟩ := hs
    have hr2 : r2 = (allocRef h s).2 := (Except.ok.inj hrr2).symm
    have hbid : r2.bufId = h.length := by rw [hr2]; rfl
    have hne : r2.bufId ≠ r.bufId := by omega
    have hne2 : r.bufId ≠ r2.bufId := by omega
    constructor
    · rw [storeSetPixel]
      split
      · rw [storeGetPixel, storeGetPixel, refImage_set_ne _ _ _ _ hne]
      · rfl
    · rw [storeSetPixel]
      split
      · rw [storeGetPixel, storeGetPixel, refImage_set_ne _ _ _ _ hne2]
      · rfl

/-- Witness for C3: slicing the notebook's 24×24 image with `[:,:]` and
writing 9 at `[0,0]` of either the copy or the source leaves the other's
sample at `[0,0]` unchanged. -/
theorem slice_is_independent_copy_witness :
    storeGetPixel (storeSetPixel (storeSlice storeNb refNb fullSpec).1
        (exceptOkD (storeSlice storeNb refNb fullSpec).2 refNb) idx00 [9]).1
        refNb idx00
      = storeGetPixel (storeSlice storeNb refNb fullSpec).1 refNb idx00 ∧
    storeGetPixel (storeSetPixel (storeSlice storeNb refNb fullSpec).1
        refNb idx00 [9]).1
        (exceptOkD (storeSlice storeNb refNb fullSpec).2 refNb) idx00
      = storeGetPixel (storeSlice storeNb refNb fullSpec).1
        (exceptOkD (storeSlice storeNb refNb fullSpec).2 refNb) idx00 :=
  slice_is_independent_copy storeNb refNb (by norm_num [storeNb, refNb])
    fullSpec (storeSlice storeNb refNb fullSpec).1
    (exceptOkD (storeSlice storeNb refNb fullSpec).2 refNb)
    rfl idx00 idx00 [9]

/-- C7: an operation that fails with one of the declared errors leaves every
operand Image exactly as it was: a failed sample write, a failed slice and a
failed addition all leave the store unchanged. -/
theorem failed_ops_leave_operands_unchanged (h : Store n) (r r1 r2 : ImgRef n)
    (idx : Fin n → ℕ) (v : List ℚ) (sp : Fin n → SliceTriple) :
    (∀ e, (storeSetPixel h r idx v).2 = some e
      → (storeSetPixel h r idx v).1 = h) ∧
    (∀ e, (storeSlice h r sp).2 = .error e → (storeSlice h r sp).1 = h) ∧
    (∀ e, (storeAdd h r1 r2).2 = .error e → (storeAdd h r1 r2).1 = h) := by
  refine ⟨fun e he => ?_, fun e he => ?_, fun e he => ?_⟩
  · by_cases hc : (refImage h r).inRange idx
    · rw [storeSetPixel, if_pos hc] at he
      simp at he
    · rw [storeSetPixel, if_neg hc]
  · rw [storeSlice] at he ⊢
    cases hsl : (refImage h r).slice sp with
    | error e2 => rfl
    | ok s => rw [hsl] at he; simp at he
  · rw [storeAdd] at he ⊢
    cases hsl : (refImage h r1).add (refImage h r2) with
    | error e2 => rfl
    | ok s => rw [hsl] at he; simp at he

/-- Witness for C7: an out-of-range write, a zero-step slice and an addition
of mismatched-size images each fail and leave the store exactly as it
was. -/
theorem failed_ops_leave_operands_unchanged_witness :
    (storeSetPixel storeNb refNb (fun _ => 99) [1]).1 = storeNb ∧
    (storeSlice storeNb refNb zeroStepSpec).1 = storeNb ∧
    (storeAdd storeNb refNb refNbSmall).1 = storeNb := by
  obtain ⟨h1, h2, h3⟩ := failed_ops_leave_operands_unchanged storeNb refNb
    refNb refNbSmall (fun _ => 99) [1] zeroStepSpec
  exact ⟨h1 .indexOutOfBounds rfl, h2 .invalidSlice rfl,
    h3 .geometryMismatch rfl⟩

lemma adjStart_fullAxis (L : ℕ) : adjStart fullAxis L = 0 := rfl

lemma adjStart_revAxis (L : ℕ) : adjStart revAxis L = (L : ℤ) - 1 := rfl

lemma sliceLen_fullAxis (L : ℕ) : sliceLen fullAxis L = L := by
  simp [sliceLen, adjStart, adjStop, fullAxis]
  omega

lemma sliceLen_revAxis (L : ℕ) : sliceLen revAxis L = L := by
  simp [sliceLen, adjStart, adjStop, revAxis]
  omega

lemma fullReverseSpec_step_ne_zero (a d : Fin n) :
    (fullReverseSpec n a d).step ≠ 0 := by
  rw [fullReverseSpec]
  split <;> simp [revAxis, fullAxis]

/-- C4: slicing with step `-1` over the full extent of axis `a` reverses the
sample order along that axis while preserving every sample's physical
coordinate: the result has the source's size, its sample at `idx` is the
source's sample at the reflected index, spacing is unchanged (scaled by
`|-1|`), the direction column of axis `a` is sign-flipped, the origin moves
to the physical location of the source index with `size a - 1` on axis `a`,
and the physical point of each slice index equals the physical point of the
reflected source index. -/
theorem slice_reverse_preserves_physical (img : Image n) (a : Fin n)
    (idx : Fin n → ℕ) (hin : ∀ d, idx d < img.size d) :
    ∃ s, img.slice (fullReverseSpec n a) = .ok s ∧
      s.size = img.size ∧
      s.GetPixel idx = img.GetPixel (reflectIdx img a idx) ∧
      s.spacing = img.spacing ∧
      (∀ i j, s.direction i j
        = img.direction i j * (if j = a then -1 else 1)) ∧
      s.origin = img.physicalPoint
        (fun d => if d = a then ((img.size a - 1 : ℕ) : ℚ) else 0) ∧
      (∀ i, s.physicalPoint (fun d => (idx d : ℚ)) i
        = img.physicalPoint (fun d => ((reflectIdx img a idx d : ℕ) : ℚ)) i) := by
  have hstep : ∀ d, (fullReverseSpec n a d).step ≠ 0 :=
    fun d => fullReverseSpec_step_ne_zero a d
  rw [Image.slice, if_pos hstep]
  refine ⟨_, rfl, ?_, ?_, ?_, ?_, ?_, ?_⟩
  · -- size
    funext d
    show sliceLen (fullReverseSpec n a d) (img.size d) = img.size d
    rw [fullReverseSpec]
    split
    · exact sliceLen_revAxis _
    · exact sliceLen_fullAxis _
  · -- samples reversed along axis a
    have hlen : ∀ d, sliceLen (fullReverseSpec n a d) (img.size d)
        = img.size d := by
      intro d
      rw [fullReverseSpec]
      split
      · exact sliceLen_revAxis _
      · exact sliceLen_fullAxis _
    have hins : Image.inRange
        { kind := img.kind
          comps := img.comps
          size := fun d => sliceLen (fullReverseSpec n a d) (img.size d)
          origin := img.physicalPoint
            (fun d => (adjStart (fullReverseSpec n a d) (img.size d) : ℚ))
          spacing := fun d =>
            img.spacing d * (((fullReverseSpec n a d).step.natAbs : ℕ) : ℚ)
          direction := fun i j =>
            img.direction i j * stepSign (fullReverseSpec n a j).step
          buffer := fun i => img.buffer
            (fun d => (adjStart (fullReverseSpec n a d) (img.size d)
              + (i d : ℤ) * (fullReverseSpec n a d).step).toNat) }
        idx := by
      intro d
      show idx d < sliceLen (fullReverseSpec n a d) (img.size d)
      rw [hlen d]
      exact hin d
    have hinr : img.inRange (reflectIdx img a idx) := by
      intro d
      rw [reflectIdx]
      split
      · next hd =>
        subst hd
        have := hin d
        omega
      · exact hin d
    rw [GetPixel_ok_of_inRange _ idx hins, GetPixel_ok_of_inRange _ _ hinr]
    show Except.ok (img.buffer _) = _
    have hmap : (fun d => (adjStart (fullReverseSpec n a d) (img.size d)
        + (idx d : ℤ) * (fullReverseSpec n a d).step).toNat)
        = reflectIdx img a idx := by
      funext d
      rw [fullReverseSpec, reflectIdx]
      split
      · next hd =>
        rw [adjStart_revAxis]
        show ((img.size d : ℤ) - 1 + (idx d : ℤ) * (-1)).toNat = _
        have := hin d
        subst hd
        omega
      · rw [adjStart_fullAxis]
        show ((0 : ℤ) + (idx d : ℤ) * 1).toNat = idx d
        omega
    rw [hmap]
  · -- spacing unchanged
    funext d
    show img.spacing d * (((fullReverseSpec n a d).step.natAbs : ℕ) : ℚ)
        = img.spacing d
    rw [fullReverseSpec]
    split <;> simp [revAxis, fullAxis]
  · -- direction column of axis a sign-flipped
    intro i j
    show img.direction i j * stepSign (fullReverseSpec n a j).step = _
    rw [fullReverseSpec]
    split <;> simp [stepSign, revAxis, fullAxis]
  · -- origin moves to the far end of axis a
    apply congrArg img.physicalPoint
    funext d
    rw [fullReverseSpec]
    split
    · next hd =>
      rw [adjStart_revAxis]
      subst hd
      have h1 : 1 ≤ img.size d := by have := hin d; omega
      push_cast [Nat.cast_sub h1]
      ring
    · rw [adjStart_fullAxis]
      norm_num
  · -- physical points preserved
    intro i
    show img.physicalPoint
        (fun d => (adjStart (fullReverseSpec n a d) (img.size d) : ℚ)) i
      + ∑ j, (img.direction i j * stepSign (fullReverseSpec n a j).step)
          * ((img.spacing j * (((fullReverseSpec n a j).step.natAbs : ℕ) : ℚ))
            * (idx j : ℚ))
      = img.origin i
        + ∑ j, img.direction i j
            * (img.spacing j * ((reflectIdx img a idx j : ℕ) : ℚ))
    rw [Image.physicalPoint, add_assoc, ← Finset.sum_add_distrib]
    congr 1
    apply Finset.sum_congr rfl
    intro j _
    rw [fullReverseSpec, reflectIdx]
    by_cases hj : j = a
    · rw [if_pos hj, if_pos hj, adjStart_revAxis]
      subst hj
      have h1 : 1 ≤ img.size j := by have := hin j; omega
      have h2 : idx j ≤ img.size j - 1 := by have := hin j; omega
      rw [Nat.cast_sub h2, Nat.cast_sub h1]
      show img.direction i j * (img.spacing j * (((img.size j : ℤ) - 1 : ℤ) : ℚ))
          + (img.direction i j * stepSign (-1))
            * ((img.spacing j * (((-1 : ℤ).natAbs : ℕ) : ℚ)) * (idx j : ℚ))
        = img.direction i j
            * (img.spacing j * (((img.size j : ℕ) : ℚ) - 1 - (idx j : ℚ)))
      rw [show stepSign (-1) = -1 from rfl,
        show (((-1 : ℤ).natAbs : ℕ) : ℚ) = 1 from rfl]
      push_cast
      ring
    · rw [if_neg hj, if_neg hj, adjStart_fullAxis]
      show img.direction i j * (img.spacing j * (((0 : ℤ) : ℚ)))
          + (img.direction i j * stepSign 1)
            * ((img.spacing j * (((1 : ℤ).natAbs : ℕ) : ℚ)) * (idx j : ℚ))
        = img.direction i j * (img.spacing j * ((idx j : ℕ) : ℚ))
      rw [show stepSign 1 = 1 from rfl,
        show (((1 : ℤ).natAbs : ℕ) : ℚ) = 1 from rfl]
      push_cast
      ring

/-- Witness for C4: reversing the notebook's 24×24 image along axis 0 at
index `[0,0]`. -/
theorem slice_reverse_preserves_physical_witness :
    ∃ s, img1nb.slice (fullReverseSpec 2 0) = .ok s ∧
      s.size = img1nb.size ∧
      s.GetPixel idx00 = img1nb.GetPixel (reflectIdx img1nb 0 idx00) ∧
      s.spacing = img1nb.spacing ∧
      (∀ i j, s.direction i j
        = img1nb.direction i j * (if j = 0 then -1 else 1)) ∧
      s.origin = img1nb.physicalPoint
        (fun d => if d = 0 then ((img1nb.size 0 - 1 : ℕ) : ℚ) else 0) ∧
      (∀ i, s.physicalPoint (fun d => (idx00 d : ℚ)) i
        = img1nb.physicalPoint
            (fun d => ((reflectIdx img1nb 0 idx00 d : ℕ) : ℚ)) i) :=
  slice_reverse_preserves_physical img1nb 0 idx00
    (fun d => by norm_num [img1nb, exceptOkD, mkImage, Image.SetPixel,
      Image.inRange, size24, idx00])

end SpatialImage
